import Mathlib

/-!
Verification of the dependency-graph build engine of the rubber repository
(module rubber.depend, file depend.py).

The embedding below translates the code of depend.py into Lean:

* class MakeError                      -> structure MakeError
* Node attributes (products, sources,
  snapshots, making)                   -> structure NodeData, state St
* Node.make (lines 136-213)            -> make / makeAttempts / makeSources
* Node.add_source / remove_source      -> addSource / removeSource
* Node.all_producers (lines 91-103)    -> apRec / allProducers
* save_cache (lines 19-31)             -> saveCache / writeRecords
* load_cache (lines 33-60)             -> loadCache / installRecord

The module rubber.contents (file not present in the sources) provides the
file-fingerprint abstraction and the per-path registry; those parts are
modelled from the spec where indicated.  Build actions (the run () method,
overridden by subclasses) are a parameter of the interpreter: a function
from the node index and the state to a success flag and a new state.

Exceptions are modelled by the result type MRes: MakeError propagation is
the err constructor, a Python IndexError (reading a snapshot index that
does not exist) is the crash constructor, and fuel exhaustion of the
interpreter is the fuel constructor.  The runs field of the state is pure
instrumentation recording each invocation of a build action together with
the boolean it returned; the Python code has no counterpart for it and
nothing in the embedded code reads it.
-/

namespace Rubber

/-- Modelled from the spec: rubber.contents (not among the sources) computes
a fingerprint of a file as "an opaque, fixed-width content digest of a file,
plus a distinguished file-does-not-exist sentinel" (NO_SUCH_FILE); it is
"computed by reading the file's full contents; never derived from
modification time".  Digests are abstracted as natural numbers; there is no
timestamp component at all. -/
inductive Fp where
  | noFile : Fp
  | digest : Nat → Fp
deriving DecidableEq, Repr

/-- A file system snapshot: a finite map from paths to fingerprints.
Paths that are absent from the list do not exist (their fingerprint is
noFile).  Modelled from the spec: contents.snapshot () reads the file at
the given path and returns its content digest, or NO_SUCH_FILE. -/
def fsGet (fs : List (String × Fp)) (p : String) : Fp :=
  match fs.find? (fun e => e.1 = p) with
  | some e => e.2
  | none => Fp.noFile

/-- One dependency node, the attributes set up by Node.__init__:
products, sources (paths, resolved through the registry), snapshots
(None or the fingerprints of the sources at the last successful build),
and the making flag ("the lock guarding against making a node while
making it").  The errors field models the value returned by get_errors ()
(the diagnostic records of the node).  The isLatex field models the test
isinstance (self, rubber.converters.latex.LaTeXDep) on line 180; that class
is not among the sources and the spec describes it as the policy hook for
"a node that is known to be regenerated by its own first pass". -/
structure NodeData where
  products : List String
  sources : List String
  snapshots : Option (List Fp)
  making : Bool
  errors : List String
  isLatex : Bool
deriving DecidableEq, Repr

instance : Inhabited NodeData := ⟨⟨[], [], none, false, [], false⟩⟩

/-- The whole mutable state: the nodes of the dependency set (a node is
named by its index in this list), the file system, and the
instrumentation trace of executed build actions (node index and the
boolean returned by run ()). -/
structure St where
  nodes : List NodeData
  fs : List (String × Fp)
  runs : List (Nat × Bool)
deriving DecidableEq, Repr

/-- Node lookup; indices produced by the registry are always in range. -/
def nodeAt (st : St) (i : Nat) : NodeData :=
  st.nodes.getD i default

def setNode (st : St) (i : Nat) (f : NodeData → NodeData) : St :=
  { st with nodes := st.nodes.set i (f (nodeAt st i)) }

def setMaking (st : St) (i : Nat) (b : Bool) : St :=
  setNode st i (fun n => { n with making := b })

def setSnapshots (st : St) (i : Nat) (v : Option (List Fp)) : St :=
  setNode st i (fun n => { n with snapshots := v })

/-- Instrumentation only: record one invocation of a build action. -/
def appendRun (e : Nat × Bool) (st : St) : St :=
  { st with runs := st.runs ++ [e] }

/-- Modelled from the spec: the registry of rubber.contents maps each path
to at most one producing node (factory (path).producer (), set by
add_product, which asserts that a product is declared only once); a None
producer means a leaf.  Here the producer of a path is the node declaring
it among its products. -/
def producer (nodes : List NodeData) (p : String) : Option Nat :=
  match nodes with
  | [] => none
  | n :: rest => if p ∈ n.products then some 0 else (producer rest p).map (· + 1)

/-- Node.primary_product: the path of the first product. -/
def primaryProduct (n : NodeData) : String :=
  n.products.headD ""

/-- The tuple built on line 174: the current fingerprint of every source. -/
def snapsOf (st : St) (i : Nat) : List Fp :=
  (nodeAt st i).sources.map (fsGet st.fs)

/-- Python's ','.join. -/
def commaJoin : List String → String
  | [] => ""
  | [s] => s
  | s :: rest => s ++ "," ++ commaJoin rest

/-- The missing string of lines 176-178: the comma-join of the paths of the
sources whose current fingerprint is NO_SUCH_FILE. -/
def missingStr (srcs : List String) (snaps : List Fp) : String :=
  commaJoin ((srcs.zip snaps).filterMap
    (fun pf => if pf.2 = Fp.noFile then some pf.1 else none))

/-- The changed string of lines 192-194: for i in range (len (snaps)),
compare self.snapshots [i] with snaps [i] and join the paths of the
differing positions.  Reading old [i] for i ≥ old.length is a Python
IndexError, modelled by the value none. -/
def changedCheck (srcs : List String) (old snaps : List Fp) : Option String :=
  if old.length < snaps.length then none
  else some (commaJoin ((List.range snaps.length).filterMap
    (fun k => if old.getD k Fp.noFile ≠ snaps.getD k Fp.noFile
              then some (srcs.getD k "") else none)))

/-- class MakeError (msg, errors): message plus diagnostic records. -/
structure MakeError where
  msg : String
  errors : List String
deriving DecidableEq, Repr

/-- Result of a make () call: normal return (the boolean return value and
the state), a raised MakeError (with the state at propagation time), a
Python IndexError (crash), or interpreter fuel exhaustion. -/
inductive MRes where
  | ok (changed : Bool) (st : St)
  | err (e : MakeError) (st : St)
  | crash (st : St)
  | fuel
deriving DecidableEq, Repr

def MRes.finalSt : MRes → Option St
  | .ok _ st => some st
  | .err _ st => some st
  | .crash st => some st
  | .fuel => none

def MRes.okPart : MRes → Option (Bool × St)
  | .ok b st => some (b, st)
  | _ => none

def MRes.errPart : MRes → Option MakeError
  | .err e _ => some e
  | _ => none

def MRes.isCrash : MRes → Bool
  | .crash _ => true
  | _ => false

/-- A build action: from the node index and the state to the boolean
returned by run () and the state after its side effects. -/
def RunFn := Nat → St → Bool × St

def PATIENCE : Nat := 5

/-- Line 201: "Recipe for {} failed". -/
def failMsg (pp : String) : String := "Recipe for " ++ pp ++ " failed"

/-- Line 209: "Contents of {} do not settle". -/
def settleMsg (pp : String) : String := "Contents of " ++ pp ++ " do not settle"

/-- Case split on the producer of a source: a leaf (None) or a node. -/
def onProducer (o : Option Nat) (leaf : Unit → MRes) (node : Nat → MRes) : MRes :=
  match o with
  | none => leaf ()
  | some j => node j

/-- Exception propagation around one statement: continue on a normal
return, re-raise a propagating MakeError or IndexError unchanged, pass the
fuel token through. -/
def bindOk (r : MRes) (k : Bool → St → MRes) : MRes :=
  match r with
  | .ok c st' => k c st'
  | .err e st' => .err e st'
  | .crash st' => .crash st'
  | .fuel => .fuel

/-- Exception propagation around the body of the try of lines 156-210:
the finally clause (line 212) clears the making flag of node i on the
exceptional paths as well. -/
def bindOkF (r : MRes) (i : Nat) (k : Bool → St → MRes) : MRes :=
  match r with
  | .ok c st' => k c st'
  | .err e st' => .err e (setMaking st' i false)
  | .crash st' => .crash (setMaking st' i false)
  | .fuel => .fuel

/-- Lines 163-170, the loop over self.sources: a source without a producer
is a leaf and is skipped; otherwise rv = source.producer ().make () or rv,
and a raised error propagates immediately (later sources are not made). -/
def makeSources (mk : Nat → St → MRes) : List String → Bool → St → MRes
  | [], rv, st => .ok rv st
  | p :: rest, rv, st =>
    onProducer (producer st.nodes p)
      (fun _ => makeSources mk rest rv st)
      (fun j => bindOk (mk j st) (fun c st' => makeSources mk rest (c || rv) st'))

/-- Lines 200-206: invoke run ().  On failure raise
MakeError (failMsg pp, get_errors ()); on success set self.snapshots to the
fingerprints computed before the action and loop with rv = True.
The finally clause of line 212 clears the making flag on the error path.
cont is the rest of the patience loop. -/
def runPhase (run : RunFn) (cont : Bool → St → MRes) (i : Nat) (pp : String)
    (snaps : List Fp) (st1 : St) : MRes :=
  if (run i st1).1 then
    cont true (setSnapshots (appendRun (i, (run i st1).1) (run i st1).2) i (some snaps))
  else
    .err ⟨failMsg pp, (nodeAt (appendRun (i, (run i st1).1) (run i st1).2) i).errors⟩
      (setMaking (appendRun (i, (run i st1).1) (run i st1).2) i false)

/-- Lines 172-206, the part of one attempt after the sources have been
made: compute the fingerprints, prune when a source is missing (except for
a LaTeXDep on the very first attempt of a first build), then compare with
self.snapshots: build when absent or changed, return rv when equal, and
crash (IndexError) when the comparison reads a snapshot index that does
not exist.  The finally clause clears the making flag on every path. -/
def afterSources (run : RunFn) (cont : Bool → St → MRes) (i : Nat)
    (pp : String) (first : Bool) (rv1 : Bool) (st1 : St) : MRes :=
  if missingStr (nodeAt st1 i).sources (snapsOf st1 i) ≠ "" ∧
     ¬((nodeAt st1 i).isLatex = true ∧ (nodeAt st1 i).snapshots = none ∧
       first = true) then
    .ok rv1 (setMaking st1 i false)
  else
    match (nodeAt st1 i).snapshots with
    | none => runPhase run cont i pp (snapsOf st1 i) st1
    | some old =>
      match changedCheck (nodeAt st1 i).sources old (snapsOf st1 i) with
      | none => .crash (setMaking st1 i false)
      | some changed =>
        if changed ≠ "" then runPhase run cont i pp (snapsOf st1 i) st1
        else .ok rv1 (setMaking st1 i false)

/-- Lines 157-210, the patience loop (for patience in range (5)): the
remaining-attempts counter starts at PATIENCE; when it reaches 0 the loop
is exhausted and MakeError (settleMsg pp, get_errors ()) is raised (the
finally clause clears the making flag).  first (patience == 0 in the code)
holds exactly on the first attempt. -/
def makeAttempts (run : RunFn) (mk : Nat → St → MRes) (i : Nat)
    (pp : String) : Nat → Bool → St → MRes
  | 0, _, st => .err ⟨settleMsg pp, (nodeAt st i).errors⟩ (setMaking st i false)
  | r + 1, rv, st =>
    bindOkF (makeSources mk (nodeAt st i).sources rv st) i
      (fun rv1 st1 =>
        afterSources run (fun b s => makeAttempts run mk i pp r b s) i pp
          (r + 1 == PATIENCE) rv1 st1)

/-- Node.make (lines 136-213).  The fuel argument bounds the depth of
nested make calls and has no counterpart in the code (the code recurses
directly); all theorems below either supply enough fuel or assume the
result is not the fuel token.  A node whose making flag is set returns
False at once (lines 150-152); otherwise the flag is set and the patience
loop runs. -/
def make (run : RunFn) : Nat → Nat → St → MRes
  | 0, _, _ => .fuel
  | f + 1, i, st =>
    if (nodeAt st i).making then .ok false st
    else
      makeAttempts run (fun j s => make run f j s) i
        (primaryProduct (nodeAt st i)) PATIENCE false (setMaking st i true)

/-- Node.add_source (lines 105-122): do nothing when the name is already
listed, otherwise append it.  self.snapshots is not touched. -/
def addSource (st : St) (i : Nat) (name : String) : St :=
  if name ∈ (nodeAt st i).sources then st
  else setNode st i (fun n => { n with sources := n.sources ++ [name] })

/-- Node.remove_source: list.remove drops the first occurrence and raises
ValueError (none) when the name is not listed.  self.snapshots is not
touched. -/
def removeSource (st : St) (i : Nat) (name : String) : Option St :=
  if name ∈ (nodeAt st i).sources then
    some (setNode st i (fun n => { n with sources := n.sources.erase name }))
  else none

/-- The children loop of the generator rec inside Node.all_producers
(lines 97-100): for each source with a producer, yield from rec (child).
rec2 is the recursive generator; the result is the list of yielded node
indices and the state after the traversal, or none when the interpreter
fuel runs out. -/
def apChildren (rec2 : Nat → St → Option (List Nat × St)) :
    List String → St → Option (List Nat × St)
  | [], st => some ([], st)
  | p :: rest, st =>
    match producer st.nodes p with
    | none => apChildren rec2 rest st
    | some j =>
      match rec2 j st with
      | none => none
      | some (ys, st') =>
        match apChildren rec2 rest st' with
        | none => none
        | some (zs, st'') => some (ys ++ zs, st'')

/-- The generator rec inside Node.all_producers (lines 92-102), translated
exactly as written: when the node is not making, mark it, yield it, yield
from each producing child, and in the finally clause execute
self.making = False — the code resets the flag of the root node (self),
not of the node the generator was visiting. -/
def apRec (root : Nat) : Nat → Nat → St → Option (List Nat × St)
  | 0, _, _ => none
  | f + 1, i, st =>
    if (nodeAt st i).making then some ([], st)
    else
      let st1 := setMaking st i true
      match apChildren (fun j s => apRec root f j s) (nodeAt st1 i).sources st1 with
      | none => none
      | some (ys, st2) => some (i :: ys, setMaking st2 root false)

/-- Node.all_producers (lines 91-103): yield from rec (self), fully
consumed (as save_cache does). -/
def allProducers (f : Nat) (i : Nat) (st : St) : Option (List Nat × St) :=
  apRec i f i st

/-- One record of the cache file: the primary product path and, in source
order, one line per source carrying the recorded fingerprint and the
source path.  The fixed-width textual encoding of a fingerprint
(rubber.contents.cs2str / str2cs / cs_str_len, not among the sources) is
modelled from the spec as a lossless code, so records carry fingerprints
directly. -/
structure CacheRecord where
  product : String
  entries : List (Fp × String)
deriving DecidableEq, Repr

/-- The body of save_cache (lines 22-31): for every yielded node whose
snapshots is not None, write its record; the line for source i reads
snapshots [i], which is a Python IndexError (none) when the snapshot list
is shorter than the source list. -/
def writeRecords (st : St) : List Nat → Option (List CacheRecord)
  | [] => some []
  | i :: rest =>
    let n := nodeAt st i
    match n.snapshots with
    | none => writeRecords st rest
    | some snaps =>
      if n.sources.length ≤ snaps.length then
        match writeRecords st rest with
        | none => none
        | some l => some (⟨primaryProduct n, snaps.zip n.sources⟩ :: l)
      else none

/-- save_cache (cache_path, final), lines 19-31: iterate
final.all_producers () and write one record per yielded node whose
snapshots is present.  Returns the records and the state left by the
traversal. -/
def saveCache (f : Nat) (final : Nat) (st : St) : Option (List CacheRecord × St) :=
  match allProducers f final st with
  | none => none
  | some (ids, st') =>
    match writeRecords st' ids with
    | none => none
    | some recs => some (recs, st')

/-- One record of load_cache (lines 48-60): resolve the product through
the registry; discard the record when there is no producing node anymore,
when the node's current source paths differ from the cached ones, or when
the node's snapshots is already present; otherwise install the cached
fingerprints as the node's snapshots. -/
def installRecord (st : St) (r : CacheRecord) : St :=
  match producer st.nodes r.product with
  | none => st
  | some j =>
    if (nodeAt st j).sources ≠ r.entries.map Prod.snd then st
    else if (nodeAt st j).snapshots ≠ none then st
    else setSnapshots st j (some (r.entries.map Prod.fst))

/-- load_cache (cache_path), lines 33-60: process the records of the file
in order. -/
def loadCache (recs : List CacheRecord) (st : St) : St :=
  recs.foldl installRecord st

/-! Basic facts about the state helpers. -/

@[simp]
theorem fs_setNode (st : St) (i : Nat) (f : NodeData → NodeData) :
    (setNode st i f).fs = st.fs := rfl

@[simp]
theorem runs_setNode (st : St) (i : Nat) (f : NodeData → NodeData) :
    (setNode st i f).runs = st.runs := rfl

@[simp]
theorem length_setNode (st : St) (i : Nat) (f : NodeData → NodeData) :
    (setNode st i f).nodes.length = st.nodes.length :=
  List.length_set st.nodes i _

@[simp]
theorem nodes_appendRun (e : Nat × Bool) (st : St) :
    (appendRun e st).nodes = st.nodes := rfl

@[simp]
theorem fs_appendRun (e : Nat × Bool) (st : St) :
    (appendRun e st).fs = st.fs := rfl

@[simp]
theorem runs_appendRun (e : Nat × Bool) (st : St) :
    (appendRun e st).runs = st.runs ++ [e] := rfl

@[simp]
theorem nodeAt_appendRun (e : Nat × Bool) (st : St) (j : Nat) :
    nodeAt (appendRun e st) j = nodeAt st j := rfl

theorem nodeAt_setNode (st : St) (i : Nat) (f : NodeData → NodeData) (j : Nat) :
    nodeAt (setNode st i f) j =
      if i = j ∧ i < st.nodes.length then f (nodeAt st i) else nodeAt st j := by
  simp only [nodeAt, setNode, List.getD_eq_getElem?_getD, List.getElem?_set]
  by_cases hij : i = j
  · subst hij
    by_cases hlt : i < st.nodes.length
    · simp [hlt]
    · simp [hlt, List.getElem?_eq_none (le_of_not_lt hlt)]
  · simp [hij]

theorem list_set_getD {α : Type} (l : List α) (i : Nat) (d : α) :
    l.set i (l.getD i d) = l := by
  induction l generalizing i with
  | nil => rfl
  | cons a t ih =>
    cases i with
    | zero => rfl
    | succ k => simpa [List.set, List.getD_cons_succ] using congrArg (a :: ·) (ih k)

theorem setNode_id (st : St) (i : Nat) (f : NodeData → NodeData)
    (h : f (nodeAt st i) = nodeAt st i) : setNode st i f = st := by
  show ({ st with nodes := st.nodes.set i (f (nodeAt st i)) } : St) = st
  rw [h]
  show ({ st with nodes := st.nodes.set i (st.nodes.getD i default) } : St) = st
  rw [list_set_getD]

theorem making_eta (n : NodeData) (h : n.making = false) :
    { n with making := false } = n := by
  cases n
  simp_all

theorem setMaking_cancel (st : St) (i : Nat) (h : (nodeAt st i).making = false) :
    setMaking (setMaking st i true) i false = st := by
  by_cases hlt : i < st.nodes.length
  · have h1 : nodeAt (setMaking st i true) i = { nodeAt st i with making := true } := by
      rw [setMaking, nodeAt_setNode, if_pos ⟨rfl, hlt⟩]
    show setNode (setMaking st i true) i (fun n => { n with making := false }) = st
    rw [setNode, h1]
    show ({ setMaking st i true with
            nodes := (st.nodes.set i _).set i { nodeAt st i with making := false } } : St) = st
    rw [List.set_set, making_eta _ h]
    show ({ st with nodes := st.nodes.set i (st.nodes.getD i default) } : St) = st
    rw [list_set_getD]
  · have h2 : ∀ (s : St) (v : NodeData → NodeData), s.nodes.length = st.nodes.length →
        setNode s i v = s := by
      intro s v hl
      show ({ s with nodes := s.nodes.set i _ } : St) = s
      rw [List.set_eq_of_length_le (by omega)]
    rw [setMaking, setMaking, h2 _ _ (by simp), h2 _ _ rfl]

theorem nodeAt_setMaking (st : St) (i : Nat) (b : Bool) (j : Nat) (h : i ≠ j) :
    nodeAt (setMaking st i b) j = nodeAt st j := by
  rw [setMaking, nodeAt_setNode, if_neg (by tauto)]

@[simp]
theorem sources_setMaking (st : St) (i : Nat) (b : Bool) (j : Nat) :
    (nodeAt (setMaking st i b) j).sources = (nodeAt st j).sources := by
  rw [setMaking, nodeAt_setNode]
  split <;> simp_all

@[simp]
theorem snapshots_setMaking (st : St) (i : Nat) (b : Bool) (j : Nat) :
    (nodeAt (setMaking st i b) j).snapshots = (nodeAt st j).snapshots := by
  rw [setMaking, nodeAt_setNode]
  split <;> simp_all

@[simp]
theorem isLatex_setMaking (st : St) (i : Nat) (b : Bool) (j : Nat) :
    (nodeAt (setMaking st i b) j).isLatex = (nodeAt st j).isLatex := by
  rw [setMaking, nodeAt_setNode]
  split <;> simp_all

@[simp]
theorem products_setMaking (st : St) (i : Nat) (b : Bool) (j : Nat) :
    (nodeAt (setMaking st i b) j).products = (nodeAt st j).products := by
  rw [setMaking, nodeAt_setNode]
  split <;> simp_all

theorem producer_congr (l₁ l₂ : List NodeData) (p : String)
    (h : l₁.map NodeData.products = l₂.map NodeData.products) :
    producer l₁ p = producer l₂ p := by
  induction l₁ generalizing l₂ with
  | nil => cases l₂ <;> simp_all [producer]
  | cons a t ih =>
    cases l₂ with
    | nil => simp_all
    | cons b u =>
      simp only [List.map_cons, List.cons.injEq] at h
      simp only [producer, h.1, ih u h.2]

@[simp]
theorem producer_setMaking (st : St) (i : Nat) (b : Bool) (p : String) :
    producer (setMaking st i b).nodes p = producer st.nodes p := by
  refine producer_congr _ _ _ ?_
  show ((st.nodes.set i _).map NodeData.products) = _
  by_cases hlt : i < st.nodes.length
  · rw [List.map_set]
    show (st.nodes.map NodeData.products).set i (nodeAt st i).products = _
    have : (nodeAt st i).products = (st.nodes.map NodeData.products).getD i default := by
      simp [nodeAt, List.getD_eq_getElem?_getD, List.getElem?_map]
      cases hx : st.nodes[i]? with
      | none => exact absurd (List.getElem?_eq_none_iff.mp hx) (by omega)
      | some n => rfl
    rw [this, list_set_getD]
  · rw [List.set_eq_of_length_le (by omega)]

@[simp]
theorem snapsOf_setMaking (st : St) (i : Nat) (b : Bool) (j : Nat) :
    snapsOf (setMaking st i b) j = snapsOf st j := by
  simp only [snapsOf, sources_setMaking]
  rfl

theorem producer_lt {l : List NodeData} {p : String} {j : Nat}
    (h : producer l p = some j) : j < l.length := by
  induction l generalizing j with
  | nil => simp [producer] at h
  | cons a t ih =>
    rw [producer] at h
    split at h
    · cases h
      simp
    · simp only [Option.map_eq_some'] at h
      obtain ⟨k, hk, rfl⟩ := h
      have := ih hk
      simp only [List.length_cons]
      omega

/-- The build actions used by concrete instances below: they succeed and
change nothing. -/
def runTrivial : RunFn := fun _ s => (true, s)

theorem make_zero (run : RunFn) (i : Nat) (st : St) : make run 0 i st = .fuel := rfl

theorem make_succ (run : RunFn) (f i : Nat) (st : St) :
    make run (f + 1) i st =
      if (nodeAt st i).making then .ok false st
      else
        makeAttempts run (fun j s => make run f j s) i
          (primaryProduct (nodeAt st i)) PATIENCE false (setMaking st i true) := rfl

theorem makeAttempts_zero (run : RunFn) (mk : Nat → St → MRes) (i : Nat)
    (pp : String) (rv : Bool) (st : St) :
    makeAttempts run mk i pp 0 rv st =
      .err ⟨settleMsg pp, (nodeAt st i).errors⟩ (setMaking st i false) := rfl

theorem makeAttempts_succ (run : RunFn) (mk : Nat → St → MRes) (i : Nat)
    (pp : String) (r : Nat) (rv : Bool) (st : St) :
    makeAttempts run mk i pp (r + 1) rv st =
      bindOkF (makeSources mk (nodeAt st i).sources rv st) i
        (fun rv1 st1 =>
          afterSources run (fun b s => makeAttempts run mk i pp r b s) i pp
            (r + 1 == PATIENCE) rv1 st1) := rfl

@[simp]
theorem onProducer_none (leaf : Unit → MRes) (node : Nat → MRes) :
    onProducer none leaf node = leaf () := rfl

@[simp]
theorem onProducer_some (j : Nat) (leaf : Unit → MRes) (node : Nat → MRes) :
    onProducer (some j) leaf node = node j := rfl

@[simp]
theorem bindOk_ok (c : Bool) (st : St) (k : Bool → St → MRes) :
    bindOk (.ok c st) k = k c st := rfl

@[simp]
theorem bindOk_err (e : MakeError) (st : St) (k : Bool → St → MRes) :
    bindOk (.err e st) k = .err e st := rfl

@[simp]
theorem bindOk_crash (st : St) (k : Bool → St → MRes) :
    bindOk (.crash st) k = .crash st := rfl

@[simp]
theorem bindOk_fuel (k : Bool → St → MRes) : bindOk .fuel k = .fuel := rfl

@[simp]
theorem bindOkF_ok (c : Bool) (st : St) (i : Nat) (k : Bool → St → MRes) :
    bindOkF (.ok c st) i k = k c st := rfl

@[simp]
theorem bindOkF_err (e : MakeError) (st : St) (i : Nat) (k : Bool → St → MRes) :
    bindOkF (.err e st) i k = .err e (setMaking st i false) := rfl

@[simp]
theorem bindOkF_crash (st : St) (i : Nat) (k : Bool → St → MRes) :
    bindOkF (.crash st) i k = .crash (setMaking st i false) := rfl

@[simp]
theorem bindOkF_fuel (i : Nat) (k : Bool → St → MRes) :
    bindOkF .fuel i k = .fuel := rfl

/-- When no source has a producer, the source loop does nothing. -/
theorem makeSources_leaves (mk : Nat → St → MRes) (srcs : List String)
    (rv : Bool) (st : St) (h : ∀ p ∈ srcs, producer st.nodes p = none) :
    makeSources mk srcs rv st = .ok rv st := by
  induction srcs with
  | nil => rfl
  | cons p rest ih =>
    rw [makeSources, h p (by simp)]
    exact ih fun q hq => h q (by simp [hq])

theorem commaJoin_ne_empty {L : List String} {q : String} (hq : q ∈ L)
    (hne : q ≠ "") : commaJoin L ≠ "" := by
  cases L with
  | nil => cases hq
  | cons a t =>
    cases t with
    | nil =>
      simp only [List.mem_singleton] at hq
      simpa [commaJoin, hq] using hne
    | cons b u =>
      intro heq
      have hl := congrArg String.length heq
      simp only [commaJoin, String.length_append] at hl
      have h1 : ("," : String).length = 1 := rfl
      have h0 : ("" : String).length = 0 := rfl
      omega

theorem mem_zip_map {α β : Type} (l : List α) (g : α → β) {p : α} (hp : p ∈ l) :
    (p, g p) ∈ l.zip (l.map g) := by
  induction l with
  | nil => cases hp
  | cons a t ih =>
    rcases List.mem_cons.mp hp with h | h
    · subst h
      simp
    · simp [ih h]

/-- When some source with a nonempty path is missing, the missing string of
lines 176-178 is nonempty. -/
theorem missingStr_ne_empty (srcs : List String) (fs : List (String × Fp))
    {p : String} (hmem : p ∈ srcs) (hfs : fsGet fs p = Fp.noFile) (hne : p ≠ "") :
    missingStr srcs (srcs.map (fsGet fs)) ≠ "" := by
  refine commaJoin_ne_empty (List.mem_filterMap.mpr ⟨(p, fsGet fs p), ?_, ?_⟩) hne
  · exact mem_zip_map srcs (fsGet fs) hmem
  · simp [hfs]

/-! Concrete graphs used by the claims. -/

/-- Two nodes, each declaring the other's product as its source; both
source files exist on disk. -/
def c3St : St :=
  ⟨[⟨["a"], ["b"], none, false, [], false⟩,
    ⟨["b"], ["a"], none, false, [], false⟩],
   [("a", Fp.digest 1), ("b", Fp.digest 2)], []⟩

/-- A single node whose making flag is already set. -/
def busySt : St := ⟨[⟨["a"], [], none, true, [], false⟩], [], []⟩

/-- A node requiring the leaf source s, which does not exist on disk. -/
def c4St : St := ⟨[⟨["x"], ["s"], none, false, [], false⟩], [], []⟩

/-- A node with one declared source and a one-entry snapshot. -/
def c6aSt : St := ⟨[⟨["p"], ["x"], some [Fp.digest 9], false, [], false⟩], [], []⟩

/-- A node whose build action discovers the new source y during the run. -/
def c6bSt : St :=
  ⟨[⟨["p"], ["x"], none, false, [], false⟩],
   [("x", Fp.digest 1), ("y", Fp.digest 2)], []⟩

/-- A build action that succeeds after registering y as a new source of
node 0 (dynamic source discovery during the run). -/
def runAddY : RunFn := fun _ s => (true, addSource s 0 "y")

/-- The target a needs b and c; b and c each need a (two cyclic edges back
to the target), and every node has a snapshot. -/
def c7St : St :=
  ⟨[⟨["a"], ["b", "c"], some [Fp.digest 1, Fp.digest 2], false, [], false⟩,
    ⟨["b"], ["a"], some [Fp.digest 3], false, [], false⟩,
    ⟨["c"], ["a"], some [Fp.digest 4], false, [], false⟩],
   [], []⟩

/-- The target a needs b, produced by a second node. -/
def c8St : St :=
  ⟨[⟨["a"], ["b"], none, false, [], false⟩,
    ⟨["b"], [], none, false, [], false⟩],
   [], []⟩

/-- Session one of the cache round trip: node 0 produces a from leaf x and
has built successfully (snapshot present, matching the disk); node 1
produces b from a and was never built. -/
def c9StOld : St :=
  ⟨[⟨["a"], ["x"], some [Fp.digest 7], false, [], false⟩,
    ⟨["b"], ["a"], none, false, [], false⟩],
   [("x", Fp.digest 7), ("a", Fp.digest 3)], []⟩

/-- Session two: the same graph, nothing built yet, same disk contents. -/
def c9StNew : St :=
  ⟨[⟨["a"], ["x"], none, false, [], false⟩,
    ⟨["b"], ["a"], none, false, [], false⟩],
   [("x", Fp.digest 7), ("a", Fp.digest 3)], []⟩

/-- Claim C3: a make () call reaching a node whose in-progress flag is
already set returns False immediately, with the state untouched (so no
recursion into sources and no build action); and on the concrete graph of
two nodes that each declare the other's product as a source, make ()
terminates and both nodes build successfully, each build action executing
exactly once (the trace is run of node 1, then run of node 0). -/
theorem claim3_cycle_pruning :
    (∀ (run : RunFn) (f i : Nat) (st : St), (nodeAt st i).making = true →
        make run (f + 1) i st = .ok false st) ∧
    ((make runTrivial 3 0 c3St).okPart.map Prod.fst = some true ∧
     (make runTrivial 3 0 c3St).finalSt.map St.runs = some [(1, true), (0, true)] ∧
     (make runTrivial 3 0 c3St).finalSt.map
         (fun s => ((nodeAt s 0).snapshots, (nodeAt s 1).snapshots)) =
       some (some [Fp.digest 2], some [Fp.digest 1])) := by
  refine ⟨fun run f i st h => ?_, by decide, by decide, by decide⟩
  rw [make_succ, if_pos h]

/-- Witness for claim C3: the pruning arm applied to a concrete node whose
making flag is set. -/
theorem claim3_witness : make runTrivial 1 0 busySt = .ok false busySt :=
  claim3_cycle_pruning.1 runTrivial 0 0 busySt rfl

/-- Claim C4, counterexample: on a node whose only (leaf) source s does not
exist on disk, make () returns normally — False, state unchanged, no build
action executed and no error raised — whereas the claim says it fails with
an error naming the path.  The message "required input file does not
exist" appears nowhere in the sources. -/
theorem claim4_counterexample :
    make runTrivial 2 0 c4St = .ok false c4St ∧
    (make runTrivial 2 0 c4St).errPart = none := by
  constructor <;> decide

/-- Claim C4 as amended: for every non-LaTeXDep node all of whose sources
are leaves, if one of them is missing on disk (with a nonempty path), the
node's make () prunes: it returns False with the state unchanged, so no
build action is invoked and no error is raised. -/
theorem claim4_missing_leaf_prunes (run : RunFn) (f i : Nat) (st : St)
    (hmk : (nodeAt st i).making = false)
    (hleaf : ∀ p ∈ (nodeAt st i).sources, producer st.nodes p = none)
    (hmiss : ∃ p, p ∈ (nodeAt st i).sources ∧ fsGet st.fs p = Fp.noFile ∧ p ≠ "")
    (hlatex : (nodeAt st i).isLatex = false) :
    make run (f + 1) i st = .ok false st := by
  obtain ⟨p, hpmem, hpfs, hpne⟩ := hmiss
  rw [make_succ, if_neg (by simp [hmk])]
  have h5 : PATIENCE = 4 + 1 := rfl
  rw [h5, makeAttempts_succ]
  rw [makeSources_leaves _ _ _ _ (by simpa using hleaf)]
  show afterSources run _ i _ _ false (setMaking st i true) = .ok false st
  rw [afterSources]
  simp only [sources_setMaking, snapsOf_setMaking, isLatex_setMaking, hlatex]
  rw [if_pos ?side]
  case side =>
    constructor
    · show missingStr (nodeAt st i).sources (snapsOf st i) ≠ ""
      exact missingStr_ne_empty _ _ hpmem hpfs hpne
    · simp
  rw [setMaking_cancel st i hmk]

/-- Witness for the amended claim C4 at the concrete instance. -/
theorem claim4_witness : make runTrivial 2 0 c4St = .ok false c4St :=
  claim4_missing_leaf_prunes runTrivial 1 0 c4St rfl (by decide)
    ⟨"s", by decide, by decide, by decide⟩ rfl

/-- Claim C6, counterexample: add_source on a node with a present snapshot
leaves the snapshot with fewer entries than there are sources; and a build
action that adds a source during make () causes the next attempt to read a
snapshot index that does not exist (a Python IndexError, the crash
result), after having executed the action once. -/
theorem claim6_counterexample :
    ((nodeAt (addSource c6aSt 0 "y") 0).snapshots.map List.length = some 1 ∧
     (nodeAt (addSource c6aSt 0 "y") 0).sources.length = 2) ∧
    ((make runAddY 3 0 c6bSt).isCrash = true ∧
     (make runAddY 3 0 c6bSt).finalSt.map St.runs = some [(0, true)]) := by
  refine ⟨⟨by decide, by decide⟩, by decide, by decide⟩

/-- Claim C7: all_producers on the target a of the cyclic graph a→,b,c,
b→a, c→a yields node 0 twice (its record is written twice to the cache),
because the finally clause of the generator rec resets the making flag of
self — the root — instead of the flag of the visited node; the claim
says each reachable node is enumerated at most once. -/
theorem claim7_duplicate_record :
    (saveCache 9 0 c7St).map (fun q => q.1.map CacheRecord.product) =
      some ["a", "b", "c", "a"] ∧
    (saveCache 9 0 c7St).map (fun q => (q.1.map CacheRecord.product).count "a") =
      some 2 := by
  constructor <;> decide

/-- Claim C8: after the save-cache traversal of the two-node graph a→b
completes, node 1's making flag is still set (the finally clause of rec
resets self.making, the root's flag, instead of node.making), whereas the
claim says every node's flag is false after any top-level operation. -/
theorem claim8_flag_left_set :
    (allProducers 9 0 c8St).map
        (fun q => ((nodeAt q.2 0).making, (nodeAt q.2 1).making)) =
      some (false, true) := by
  decide

/-- Claim C9: the cache round trip on the graph of the spec (a built from
leaf x with a present snapshot, b built from a, never built).  Saving from
the target b writes exactly node 0's record; loading it into the fresh
session installs exactly the saved fingerprints as node 0's snapshot; a
subsequent make () of node 1 runs only node 1's action (node 0's is
skipped, x being unchanged).  Moreover a record whose product has no
producer, or whose cached source-path list differs from the node's current
one, is discarded without installing anything (installRecord is total, so
nothing is raised). -/
theorem claim9_cache_roundtrip :
    ((saveCache 9 1 c9StOld).map Prod.fst =
        some [⟨"a", [(Fp.digest 7, "x")]⟩] ∧
     (nodeAt (loadCache [⟨"a", [(Fp.digest 7, "x")]⟩] c9StNew) 0).snapshots =
        some [Fp.digest 7] ∧
     (make runTrivial 3 1 (loadCache [⟨"a", [(Fp.digest 7, "x")]⟩] c9StNew)).okPart.map
         Prod.fst = some true ∧
     (make runTrivial 3 1 (loadCache [⟨"a", [(Fp.digest 7, "x")]⟩] c9StNew)).finalSt.map
         St.runs = some [(1, true)]) ∧
    (∀ (r : CacheRecord) (st : St), producer st.nodes r.product = none →
        installRecord st r = st) ∧
    (∀ (r : CacheRecord) (st : St) (j : Nat),
        producer st.nodes r.product = some j →
        (nodeAt st j).sources ≠ r.entries.map Prod.snd →
        installRecord st r = st) := by
  refine ⟨⟨by decide, by decide, by decide, by decide⟩, ?_, ?_⟩
  · intro r st h
    simp [installRecord, h]
  · intro r st j h1 h2
    simp [installRecord, h1, h2]

/-- Witness for claim C9: a record whose product has no producer is
discarded. -/
theorem claim9_witness :
    installRecord c9StNew ⟨"unknown", []⟩ = c9StNew :=
  claim9_cache_roundtrip.2.1 ⟨"unknown", []⟩ c9StNew (by decide)

/-! Machinery for the attempt-level reasoning. -/

/-- When no source is missing, the missing string is empty. -/
theorem missingStr_empty (srcs : List String) {snaps : List Fp}
    (h : Fp.noFile ∉ snaps) : missingStr srcs snaps = "" := by
  unfold missingStr
  have he : (srcs.zip snaps).filterMap
      (fun pf => if pf.2 = Fp.noFile then some pf.1 else none) = [] := by
    refine List.filterMap_eq_nil_iff.mpr fun pf hpf => ?_
    obtain ⟨a, b⟩ := pf
    refine if_neg fun he2 => h ?_
    rw [← he2]
    exact (List.of_mem_zip hpf).2
  rw [he]
  rfl

/-- Comparing a snapshot list with itself reports no change. -/
theorem changedCheck_self (srcs : List String) (snaps : List Fp) :
    changedCheck srcs snaps snaps = some "" := by
  unfold changedCheck
  rw [if_neg (lt_irrefl _)]
  have he : (List.range snaps.length).filterMap
      (fun k => if snaps.getD k Fp.noFile ≠ snaps.getD k Fp.noFile
                then some (srcs.getD k "") else none) = [] :=
    List.filterMap_eq_nil_iff.mpr fun k _ => by simp
  rw [he]
  rfl

/-- The decision of lines 188-198: would this attempt execute the build
action?  True when there is no previous snapshot or when the comparison
reports a (nonempty) changed string; false when the comparison reports no
change; the comparison itself can raise (the none case), which counts as
not building. -/
def wouldBuild (st : St) (i : Nat) : Bool :=
  match (nodeAt st i).snapshots with
  | none => true
  | some old =>
    match changedCheck (nodeAt st i).sources old (snapsOf st i) with
    | none => false
    | some changed => changed != ""

theorem wouldBuild_spec (st : St) (i : Nat) (h : wouldBuild st i = true) :
    (nodeAt st i).snapshots = none ∨
    ∃ old changed, (nodeAt st i).snapshots = some old ∧
      changedCheck (nodeAt st i).sources old (snapsOf st i) = some changed ∧
      changed ≠ "" := by
  unfold wouldBuild at h
  split at h
  · left
    assumption
  · rename_i old hsn
    split at h
    · cases h
    · rename_i changed hcc
      exact Or.inr ⟨old, changed, hsn, hcc, by simpa using h⟩

/-- When the action succeeds, runPhase installs the pre-run fingerprints
as the snapshot, records the execution, and continues the loop. -/
theorem runPhase_true (run : RunFn) (cont : Bool → St → MRes) (i : Nat)
    (pp : String) (snaps : List Fp) (st : St) (h : (run i st).1 = true) :
    runPhase run cont i pp snaps st =
      cont true (setSnapshots (appendRun (i, true) (run i st).2) i (some snaps)) := by
  rw [runPhase, h, if_pos rfl]

/-- One full attempt of the patience loop in the oscillating situation:
all sources are leaves, none is missing, the decision is to build, and the
action succeeds — the loop continues with one fewer attempt, rv = True,
and the next state. -/
theorem attempt_step (run : RunFn) (mk : Nat → St → MRes) (i : Nat)
    (pp : String) (r : Nat) (rv : Bool) (st : St)
    (hsrc : ∀ p ∈ (nodeAt st i).sources, producer st.nodes p = none)
    (hmiss : Fp.noFile ∉ snapsOf st i)
    (hdec : (nodeAt st i).snapshots = none ∨
      ∃ old changed, (nodeAt st i).snapshots = some old ∧
        changedCheck (nodeAt st i).sources old (snapsOf st i) = some changed ∧
        changed ≠ "")
    (hrun : (run i st).1 = true) :
    makeAttempts run mk i pp (r + 1) rv st =
      makeAttempts run mk i pp r true
        (setSnapshots (appendRun (i, true) (run i st).2) i (some (snapsOf st i))) := by
  rw [makeAttempts_succ, makeSources_leaves _ _ _ _ hsrc]
  show afterSources run (fun b s => makeAttempts run mk i pp r b s) i pp _ rv st = _
  rw [afterSources,
    if_neg (by simp [missingStr_empty (nodeAt st i).sources hmiss])]
  rcases hdec with hsn | ⟨old, changed, hsn, hcc, hne⟩
  · split
    · exact runPhase_true run _ i pp _ st hrun
    · rename_i old hsn2
      rw [hsn] at hsn2
      cases hsn2
  · split
    · rename_i hsn2
      rw [hsn] at hsn2
      cases hsn2
    · rename_i old2 hsn2
      rw [hsn] at hsn2
      cases hsn2
      split
      · rename_i hcc2
        rw [hcc] at hcc2
        cases hcc2
      · rename_i changed2 hcc2
        rw [hcc] at hcc2
        cases hcc2
        rw [if_pos hne]
        exact runPhase_true run _ i pp _ st hrun

/-- Claim C2: a node whose sources never settle — at every one of the five
attempts no source is missing, every source is a leaf, the decision is to
build (first build or nonempty changed string), and the successful action
leads to the given next state — executes its build action exactly
PATIENCE = 5 times and then raises MakeError with message
settleMsg (primary product) carrying the node's diagnostic records; the
run trace of the final state is the initial trace extended by exactly five
executions of this node, so no sixth execution happens and make () does
not return normally. -/
theorem claim2_does_not_settle (run : RunFn) (f i : Nat) (st0 : St)
    (sts : Nat → St)
    (hmk : (nodeAt st0 i).making = false)
    (h0 : sts 0 = setMaking st0 i true)
    (hsrc : ∀ k, k < 5 → ∀ p ∈ (nodeAt (sts k) i).sources,
        producer (sts k).nodes p = none)
    (hmiss : ∀ k, k < 5 → Fp.noFile ∉ snapsOf (sts k) i)
    (hbld : ∀ k, k < 5 → wouldBuild (sts k) i = true)
    (hrun : ∀ k, k < 5 → (run i (sts k)).1 = true ∧
        sts (k + 1) = setSnapshots (appendRun (i, true) ((run i (sts k)).2)) i
          (some (snapsOf (sts k) i)))
    (hruns : ∀ k, k < 5 → ((run i (sts k)).2).runs = (sts k).runs) :
    make run (f + 1) i st0 =
      .err ⟨settleMsg (primaryProduct (nodeAt st0 i)), (nodeAt (sts 5) i).errors⟩
        (setMaking (sts 5) i false) ∧
    (sts 5).runs = st0.runs ++ List.replicate 5 (i, true) := by
  have step : ∀ (k : Nat), k < 5 → ∀ (mk : Nat → St → MRes) (r : Nat) (rv : Bool),
      makeAttempts run mk i (primaryProduct (nodeAt st0 i)) (r + 1) rv (sts k) =
        makeAttempts run mk i (primaryProduct (nodeAt st0 i)) r true (sts (k + 1)) := by
    intro k hk mk r rv
    rw [attempt_step run mk i _ r rv (sts k) (hsrc k hk) (hmiss k hk)
        (wouldBuild_spec _ _ (hbld k hk)) (hrun k hk).1, ← (hrun k hk).2]
  constructor
  · rw [make_succ, if_neg (by simp [hmk]), ← h0,
      show PATIENCE = 5 from rfl]
    have e0 := step 0 (by norm_num) (fun j s => make run f j s) 4 false
    have e1 := step 1 (by norm_num) (fun j s => make run f j s) 3 true
    have e2 := step 2 (by norm_num) (fun j s => make run f j s) 2 true
    have e3 := step 3 (by norm_num) (fun j s => make run f j s) 1 true
    have e4 := step 4 (by norm_num) (fun j s => make run f j s) 0 true
    norm_num at e0 e1 e2 e3 e4
    rw [e0, e1, e2, e3, e4, makeAttempts_zero]
  · have r0 : (sts 0).runs = st0.runs := by rw [h0]; rfl
    have rstep : ∀ k, k < 5 → (sts (k + 1)).runs = (sts k).runs ++ [(i, true)] := by
      intro k hk
      rw [(hrun k hk).2]
      show ((appendRun (i, true) ((run i (sts k)).2)).runs) = _
      rw [runs_appendRun, hruns k hk]
    have q0 := rstep 0 (by norm_num)
    have q1 := rstep 1 (by norm_num)
    have q2 := rstep 2 (by norm_num)
    have q3 := rstep 3 (by norm_num)
    have q4 := rstep 4 (by norm_num)
    norm_num at q0 q1 q2 q3 q4
    rw [q4, q3, q2, q1, q0, r0]
    show _ = st0.runs ++
      [(i, true), (i, true), (i, true), (i, true), (i, true)]
    simp [List.append_assoc]

/-- The oscillating build action of the witness: it succeeds and rewrites
the content of the source s at every execution. -/
def runOsc : RunFn :=
  fun _ s => (true, { s with fs := [("s", Fp.digest (s.runs.length + 1))] })

/-- A node producing p from the leaf s. -/
def oscSt : St :=
  ⟨[⟨["p"], ["s"], none, false, [], false⟩], [("s", Fp.digest 0)], []⟩

/-- The state at the start of attempt k of the oscillating build. -/
def oscSts : Nat → St := fun k =>
  ⟨[⟨["p"], ["s"], (if k = 0 then none else some [Fp.digest (k - 1)]), true,
     [], false⟩],
   [("s", Fp.digest k)], List.replicate k (0, true)⟩

/-- Witness for claim C2: the concrete oscillating node fails with
"Contents of p do not settle" after exactly five executions. -/
theorem claim2_witness :
    make runOsc 1 0 oscSt =
      .err ⟨settleMsg (primaryProduct (nodeAt oscSt 0)), (nodeAt (oscSts 5) 0).errors⟩
        (setMaking (oscSts 5) 0 false) ∧
    (oscSts 5).runs = oscSt.runs ++ List.replicate 5 (0, true) :=
  claim2_does_not_settle runOsc 0 0 oscSt oscSts (by decide) (by decide)
    (by decide) (by decide) (by decide) (by decide) (by decide)

/-- The failing build action of the claim C5 witness. -/
def runFailB : RunFn := fun _ s => (false, s)

/-- Node 0 produces a from b; node 1 produces b (a leaf-free recipe) and
carries the diagnostic record boom. -/
def c5St : St :=
  ⟨[⟨["a"], ["b"], none, false, [], false⟩,
    ⟨["b"], [], none, false, ["boom"], false⟩],
   [("b", Fp.digest 2)], []⟩

/-- The state in which node 1's failure is raised: node 0 is mid-make,
node 1's flag is already cleared, and the trace records node 1's failed
execution. -/
def c5StE : St :=
  ⟨[⟨["a"], ["b"], none, true, [], false⟩,
    ⟨["b"], [], none, false, ["boom"], false⟩],
   [("b", Fp.digest 2)], [(1, false)]⟩

/-- Claim C5: when making the sources of a node raises a MakeError (a
source's producer failed), the node's own make () re-raises exactly that
error — same message, same diagnostic records, identifying the originally
failing node — after clearing its own making flag; its own build action is
not reached in that call.  And inside the source loop, an error from one
producer propagates immediately: the remaining sources are not made. -/
theorem claim5_error_propagation :
    (∀ (run : RunFn) (f i : Nat) (st : St) (e : MakeError) (stE : St),
        (nodeAt st i).making = false →
        makeSources (fun j s => make run f j s)
            (nodeAt (setMaking st i true) i).sources false (setMaking st i true) =
          .err e stE →
        make run (f + 1) i st = .err e (setMaking stE i false)) ∧
    (∀ (mk : Nat → St → MRes) (p : String) (rest : List String) (rv : Bool)
        (st : St) (j : Nat) (e : MakeError) (stX : St),
        producer st.nodes p = some j → mk j st = .err e stX →
        makeSources mk (p :: rest) rv st = .err e stX) := by
  constructor
  · intro run f i st e stE hmk hsrc
    rw [make_succ, if_neg (by simp [hmk]), show PATIENCE = 4 + 1 from rfl,
      makeAttempts_succ, hsrc]
    rfl
  · intro mk p rest rv st j e stX hp hmk
    simp only [makeSources, hp, onProducer_some, hmk, bindOk_err]

/-- Witness for claim C5: node 1's failure, with its own diagnostics,
becomes node 0's failure unchanged. -/
theorem claim5_witness :
    make runFailB 2 0 c5St =
      .err ⟨failMsg "b", ["boom"]⟩ (setMaking c5StE 0 false) :=
  claim5_error_propagation.1 runFailB 1 0 c5St ⟨failMsg "b", ["boom"]⟩ c5StE
    rfl (by decide)

/-! Machinery for claim C1: states that agree on everything except the
making flags.  During a converged make () call tree the only state change
is the transient setting of making flags, so every visited node sees a
state in this equivalence class of the initial one. -/

def stripMk (n : NodeData) : NodeData := { n with making := false }

def eqX (a b : St) : Prop :=
  a.fs = b.fs ∧ a.runs = b.runs ∧ a.nodes.map stripMk = b.nodes.map stripMk

theorem eqX_refl (a : St) : eqX a a := ⟨rfl, rfl, rfl⟩

theorem eqX_length {a b : St} (h : eqX a b) : a.nodes.length = b.nodes.length := by
  have h2 := congrArg List.length h.2.2
  simpa using h2

theorem stripMk_default : stripMk default = (default : NodeData) := rfl

theorem stripMk_nodeAt {a b : St} (h : eqX a b) (j : Nat) :
    stripMk (nodeAt a j) = stripMk (nodeAt b j) := by
  have h1 : stripMk (nodeAt a j) = (a.nodes.map stripMk).getD j default := by
    rw [nodeAt, ← List.getD_map a.nodes default stripMk, stripMk_default]
  have h2 : stripMk (nodeAt b j) = (b.nodes.map stripMk).getD j default := by
    rw [nodeAt, ← List.getD_map b.nodes default stripMk, stripMk_default]
  rw [h1, h2, h.2.2]

theorem sources_eqX {a b : St} (h : eqX a b) (j : Nat) :
    (nodeAt a j).sources = (nodeAt b j).sources := by
  have h2 := congrArg NodeData.sources (stripMk_nodeAt h j)
  exact h2

theorem snapshots_eqX {a b : St} (h : eqX a b) (j : Nat) :
    (nodeAt a j).snapshots = (nodeAt b j).snapshots := by
  have h2 := congrArg NodeData.snapshots (stripMk_nodeAt h j)
  exact h2

theorem producer_eqX {a b : St} (h : eqX a b) (p : String) :
    producer a.nodes p = producer b.nodes p := by
  refine producer_congr _ _ _ ?_
  have e1 : a.nodes.map NodeData.products =
      (a.nodes.map stripMk).map NodeData.products := by
    rw [List.map_map]
    rfl
  have e2 : b.nodes.map NodeData.products =
      (b.nodes.map stripMk).map NodeData.products := by
    rw [List.map_map]
    rfl
  rw [e1, e2, h.2.2]

theorem snapsOf_eqX {a b : St} (h : eqX a b) (j : Nat) :
    snapsOf a j = snapsOf b j := by
  rw [snapsOf, snapsOf, sources_eqX h j, h.1]

theorem eqX_setMaking {a b : St} (h : eqX a b) (i : Nat) (bo : Bool) :
    eqX a (setMaking b i bo) := by
  refine ⟨h.1, h.2.1, ?_⟩
  show a.nodes.map stripMk = (b.nodes.set i _).map stripMk
  rw [List.map_set]
  have h1 : stripMk { nodeAt b i with making := bo } = stripMk (nodeAt b i) := rfl
  rw [h1]
  have h2 : stripMk (nodeAt b i) = (b.nodes.map stripMk).getD i default := by
    rw [nodeAt, ← List.getD_map b.nodes default stripMk, stripMk_default]
  rw [h2, list_set_getD, h.2.2]

/-- On a graph whose every node's snapshot equals the current fingerprints
of its sources, make () visits nodes, runs nothing, and returns False with
the state unchanged — at any state of the call tree (any setting of the
making flags). -/
theorem make_converged_aux (run : RunFn) (st0 : St)
    (hc : ∀ j, j < st0.nodes.length →
      (nodeAt st0 j).snapshots = some (snapsOf st0 j)) :
    ∀ (f : Nat) (i : Nat) (st : St), eqX st0 st → i < st0.nodes.length →
      make run f i st ≠ .fuel → make run f i st = .ok false st := by
  intro f
  induction f with
  | zero =>
    intro i st _ _ hne
    exact absurd rfl hne
  | succ f ih =>
    intro i st hx hi hne
    rw [make_succ] at hne ⊢
    by_cases hmk : (nodeAt st i).making = true
    · rw [if_pos hmk]
    · rw [if_neg hmk] at hne ⊢
      have hmkf : (nodeAt st i).making = false := by
        revert hmk
        cases (nodeAt st i).making <;> simp
      have hx1 : eqX st0 (setMaking st i true) := eqX_setMaking hx i true
      have hsrcs : ∀ (srcs : List String) (rv : Bool),
          makeSources (fun j s => make run f j s) srcs rv (setMaking st i true) ≠
            .fuel →
          makeSources (fun j s => make run f j s) srcs rv (setMaking st i true) =
            .ok rv (setMaking st i true) := by
        intro srcs
        induction srcs with
        | nil =>
          intro rv _
          rfl
        | cons p rest ihs =>
          intro rv hne2
          simp only [makeSources] at hne2 ⊢
          cases hp : producer (setMaking st i true).nodes p with
          | none =>
            simp only [hp, onProducer_none] at hne2 ⊢
            exact ihs rv hne2
          | some j =>
            simp only [hp, onProducer_some] at hne2 ⊢
            have hj : j < st0.nodes.length := by
              have h1 := producer_lt hp
              have h2 : (setMaking st i true).nodes.length = st.nodes.length := by
                simp [setMaking]
              have h3 := eqX_length hx
              omega
            by_cases hfu : make run f j (setMaking st i true) = .fuel
            · rw [hfu, bindOk_fuel] at hne2
              exact absurd rfl hne2
            · have hok := ih j (setMaking st i true) hx1 hj hfu
              simp only [hok, bindOk_ok, Bool.false_or] at hne2 ⊢
              exact ihs rv hne2
      rw [show PATIENCE = 4 + 1 from rfl, makeAttempts_succ] at hne ⊢
      by_cases hfu : makeSources (fun j s => make run f j s)
          (nodeAt (setMaking st i true) i).sources false (setMaking st i true) =
          .fuel
      · rw [hfu, bindOkF_fuel] at hne
        exact absurd rfl hne
      · have hs := hsrcs _ false hfu
        simp only [hs, bindOkF_ok]
        have hsn : (nodeAt (setMaking st i true) i).snapshots =
            some (snapsOf (setMaking st i true) i) := by
          rw [← snapshots_eqX hx1 i, hc i hi, snapsOf_eqX hx1 i]
        rw [afterSources]
        by_cases hcond : missingStr (nodeAt (setMaking st i true) i).sources
              (snapsOf (setMaking st i true) i) ≠ "" ∧
            ¬((nodeAt (setMaking st i true) i).isLatex = true ∧
              (nodeAt (setMaking st i true) i).snapshots = none ∧
              (4 + 1 == PATIENCE) = true)
        · rw [if_pos hcond, setMaking_cancel st i hmkf]
        · rw [if_neg hcond]
          split
          · rename_i h2
            rw [hsn] at h2
            cases h2
          · rename_i old h2
            rw [hsn] at h2
            cases h2
            split
            · rename_i h3
              rw [changedCheck_self] at h3
              cases h3
            · rename_i changed h3
              rw [changedCheck_self] at h3
              cases h3
              rw [if_neg (by simp), setMaking_cancel st i hmkf]

/-- Claim C1: on a graph every node of which has a snapshot equal to the
freshly computed fingerprints of its sources (exactly the situation after
a successful make () when the source files are unchanged on disk —
fingerprints carry no timestamp, so rewritten-but-byte-identical files
count as unchanged), a make () call on any target returns False with the
state unchanged: zero build actions are executed (the run trace is
untouched), each node returning as soon as its fingerprints match its
snapshot. -/
theorem claim1_idempotence (run : RunFn) (f i : Nat) (st : St)
    (hconv : ∀ j, j < st.nodes.length →
      (nodeAt st j).snapshots = some (snapsOf st j))
    (hi : i < st.nodes.length)
    (hfuel : make run f i st ≠ .fuel) :
    make run f i st = .ok false st :=
  make_converged_aux run st hconv f i st (eqX_refl st) hi hfuel

/-- A two-node converged chain: node 0 builds a from leaf x, node 1 builds
b from a; both snapshots match the disk. -/
def c1St : St :=
  ⟨[⟨["a"], ["x"], some [Fp.digest 5], false, [], false⟩,
    ⟨["b"], ["a"], some [Fp.digest 3], false, [], false⟩],
   [("x", Fp.digest 5), ("a", Fp.digest 3)], []⟩

/-- Witness for claim C1 on the concrete converged chain. -/
theorem claim1_witness : make runTrivial 3 1 c1St = .ok false c1St :=
  claim1_idempotence runTrivial 3 1 c1St (by decide) (by decide) (by decide)

/-! Machinery for claim C10: the return value of make () reports exactly
whether some build action was executed, and a normal return means every
executed action succeeded. -/

theorem append_nil_iff {α : Type} (t1 t2 : List α) :
    t1 ++ t2 = [] ↔ t1 = [] ∧ t2 = [] := by
  cases t1 <;> simp

theorem runs_sources (mk : Nat → St → MRes)
    (Hmk : ∀ (j : Nat) (s : St) (b : Bool) (s' : St), mk j s = .ok b s' →
      ∃ t, s'.runs = s.runs ++ t ∧ (b = true ↔ t ≠ []) ∧ ∀ e ∈ t, e.2 = true) :
    ∀ (srcs : List String) (rv : Bool) (st : St) (rv' : Bool) (st' : St),
      makeSources mk srcs rv st = .ok rv' st' →
      ∃ t, st'.runs = st.runs ++ t ∧ (rv' = true ↔ rv = true ∨ t ≠ []) ∧
        ∀ e ∈ t, e.2 = true := by
  intro srcs
  induction srcs with
  | nil =>
    intro rv st rv' st' h
    have h1 : MRes.ok rv st = MRes.ok rv' st' := h
    injection h1 with hb hs
    subst hb
    subst hs
    exact ⟨[], by simp, by simp, by simp⟩
  | cons p rest ih =>
    intro rv st rv' st' h
    simp only [makeSources] at h
    cases hp : producer st.nodes p with
    | none =>
      simp only [hp, onProducer_none] at h
      exact ih rv st rv' st' h
    | some j =>
      simp only [hp, onProducer_some] at h
      cases hm : mk j st with
      | ok c st2 =>
        simp only [hm, bindOk_ok] at h
        obtain ⟨t1, ht1, hb1, ha1⟩ := Hmk j st c st2 hm
        obtain ⟨t2, ht2, hb2, ha2⟩ := ih _ _ _ _ h
        refine ⟨t1 ++ t2, ?_, ?_, ?_⟩
        · rw [ht2, ht1, List.append_assoc]
        · rw [hb2]
          simp only [Bool.or_eq_true, hb1, ne_eq, append_nil_iff]
          tauto
        · intro e he
          rcases List.mem_append.mp he with h1 | h2
          exacts [ha1 e h1, ha2 e h2]
      | err e2 s2 =>
        rw [hm, bindOk_err] at h
        exact MRes.noConfusion h
      | crash s2 =>
        rw [hm, bindOk_crash] at h
        exact MRes.noConfusion h
      | fuel =>
        rw [hm, bindOk_fuel] at h
        exact MRes.noConfusion h

theorem runs_runPhase (run : RunFn) (Hrun : ∀ j s, ((run j s).2).runs = s.runs)
    (cont : Bool → St → MRes)
    (Hcont : ∀ (s : St) (b' : Bool) (s' : St), cont true s = .ok b' s' →
      b' = true ∧ ∃ t, s'.runs = s.runs ++ t ∧ ∀ e ∈ t, e.2 = true)
    (i : Nat) (pp : String) (snaps : List Fp) (st1 : St) (b : Bool) (st' : St)
    (h : runPhase run cont i pp snaps st1 = .ok b st') :
    b = true ∧ ∃ t, st'.runs = st1.runs ++ t ∧ t ≠ [] ∧ ∀ e ∈ t, e.2 = true := by
  rw [runPhase] at h
  by_cases hr : (run i st1).1 = true
  · rw [if_pos hr, hr] at h
    have h2 : cont true
        (setSnapshots (appendRun (i, true) (run i st1).2) i (some snaps)) =
        .ok b st' := h
    obtain ⟨hb, t2, ht2, ha2⟩ := Hcont _ b st' h2
    refine ⟨hb, (i, true) :: t2, ?_, by simp, ?_⟩
    · rw [ht2]
      have h3 : (setSnapshots (appendRun (i, true) (run i st1).2) i
          (some snaps)).runs = st1.runs ++ [(i, true)] := by
        show ((appendRun (i, true) (run i st1).2).runs) = _
        rw [runs_appendRun, Hrun]
      rw [h3, List.append_assoc]
      rfl
    · intro e he
      rcases List.mem_cons.mp he with h4 | h4
      · rw [h4]
      · exact ha2 e h4
  · rw [if_neg hr] at h
    exact MRes.noConfusion h

theorem runs_attempts (run : RunFn) (Hrun : ∀ j s, ((run j s).2).runs = s.runs)
    (mk : Nat → St → MRes)
    (Hmk : ∀ (j : Nat) (s : St) (b : Bool) (s' : St), mk j s = .ok b s' →
      ∃ t, s'.runs = s.runs ++ t ∧ (b = true ↔ t ≠ []) ∧ ∀ e ∈ t, e.2 = true)
    (i : Nat) (pp : String) :
    ∀ (r : Nat) (rv : Bool) (st : St) (b : Bool) (st' : St),
      makeAttempts run mk i pp r rv st = .ok b st' →
      ∃ t, st'.runs = st.runs ++ t ∧ (b = true ↔ rv = true ∨ t ≠ []) ∧
        ∀ e ∈ t, e.2 = true := by
  intro r
  induction r with
  | zero =>
    intro rv st b st' h
    rw [makeAttempts_zero] at h
    exact MRes.noConfusion h
  | succ r ihr =>
    intro rv st b st' h
    have Hcont : ∀ (s : St) (b' : Bool) (s' : St),
        (fun bb ss => makeAttempts run mk i pp r bb ss) true s = .ok b' s' →
        b' = true ∧ ∃ t, s'.runs = s.runs ++ t ∧ ∀ e ∈ t, e.2 = true := by
      intro s b' s' hc
      obtain ⟨t, ht, hb, ha⟩ := ihr true s b' s' hc
      exact ⟨hb.mpr (Or.inl rfl), t, ht, ha⟩
    rw [makeAttempts_succ] at h
    cases hms : makeSources mk (nodeAt st i).sources rv st with
    | ok rv1 st1 =>
      simp only [hms, bindOkF_ok] at h
      obtain ⟨t1, ht1, hb1, ha1⟩ := runs_sources mk Hmk _ rv st rv1 st1 hms
      rw [afterSources] at h
      by_cases hmc : missingStr (nodeAt st1 i).sources (snapsOf st1 i) ≠ "" ∧
          ¬((nodeAt st1 i).isLatex = true ∧ (nodeAt st1 i).snapshots = none ∧
            (r + 1 == PATIENCE) = true)
      · rw [if_pos hmc] at h
        injection h with h1 h2
        subst h1
        refine ⟨t1, ?_, hb1, ha1⟩
        rw [← h2]
        exact ht1
      · rw [if_neg hmc] at h
        split at h
        · obtain ⟨hb, t2, ht2, hne2, ha2⟩ :=
            runs_runPhase run Hrun _ Hcont i pp _ st1 b st' h
          refine ⟨t1 ++ t2, ?_, ?_, ?_⟩
          · rw [ht2, ht1, List.append_assoc]
          · simp [hb, append_nil_iff, hne2]
          · intro e he
            rcases List.mem_append.mp he with h4 | h4
            exacts [ha1 e h4, ha2 e h4]
        · split at h
          · exact MRes.noConfusion h
          · rename_i changed hcc
            by_cases hch : changed ≠ ""
            · rw [if_pos hch] at h
              obtain ⟨hb, t2, ht2, hne2, ha2⟩ :=
                runs_runPhase run Hrun _ Hcont i pp _ st1 b st' h
              refine ⟨t1 ++ t2, ?_, ?_, ?_⟩
              · rw [ht2, ht1, List.append_assoc]
              · simp [hb, append_nil_iff, hne2]
              · intro e he
                rcases List.mem_append.mp he with h4 | h4
                exacts [ha1 e h4, ha2 e h4]
            · rw [if_neg hch] at h
              injection h with h1 h2
              subst h1
              refine ⟨t1, ?_, hb1, ha1⟩
              rw [← h2]
              exact ht1
    | err e2 s2 =>
      rw [hms, bindOkF_err] at h
      exact MRes.noConfusion h
    | crash s2 =>
      rw [hms, bindOkF_crash] at h
      exact MRes.noConfusion h
    | fuel =>
      rw [hms, bindOkF_fuel] at h
      exact MRes.noConfusion h

theorem runs_make (run : RunFn) (Hrun : ∀ j s, ((run j s).2).runs = s.runs) :
    ∀ (f i : Nat) (st : St) (b : Bool) (st' : St), make run f i st = .ok b st' →
      ∃ t, st'.runs = st.runs ++ t ∧ (b = true ↔ t ≠ []) ∧
        ∀ e ∈ t, e.2 = true := by
  intro f
  induction f with
  | zero =>
    intro i st b st' h
    exact MRes.noConfusion h
  | succ f ihf =>
    intro i st b st' h
    rw [make_succ] at h
    by_cases hmk : (nodeAt st i).making = true
    · rw [if_pos hmk] at h
      injection h with h1 h2
      subst h1
      subst h2
      exact ⟨[], by simp, by simp, by simp⟩
    · rw [if_neg hmk] at h
      obtain ⟨t, ht, hb, ha⟩ := runs_attempts run Hrun _ (fun j s => ihf j s)
        i _ PATIENCE false (setMaking st i true) b st' h
      refine ⟨t, ht, by simpa using hb, ha⟩

/-- Claim C10: make () reports failure only by raising (the err result);
whenever it returns normally with value b, the run trace of the final
state extends the initial trace by the build actions executed during the
call (by this node or transitively by producers), b is True exactly when
that extension is nonempty (at least one action ran) and False when it is
empty (nothing to do, or pruning), and every recorded action in the
extension returned success. -/
theorem claim10_return_value (run : RunFn) (f i : Nat) (st : St) (b : Bool)
    (stF : St)
    (hpure : ∀ j s, ((run j s).2).runs = s.runs)
    (h : make run f i st = .ok b stF) :
    ∃ t, stF.runs = st.runs ++ t ∧ (b = true ↔ t ≠ []) ∧
      ∀ e ∈ t, e.2 = true :=
  runs_make run hpure f i st b stF h

/-- The final state of the claim C3 build, used as the concrete instance
for the claim C10 witness. -/
def c3StF : St :=
  ⟨[⟨["a"], ["b"], some [Fp.digest 2], false, [], false⟩,
    ⟨["b"], ["a"], some [Fp.digest 1], false, [], false⟩],
   [("a", Fp.digest 1), ("b", Fp.digest 2)], [(1, true), (0, true)]⟩

/-- Witness for claim C10 on the concrete cyclic build: it returns True
and the trace extension is the nonempty, all-successful [(1, true),
(0, true)]. -/
theorem claim10_witness :
    ∃ t, c3StF.runs = c3St.runs ++ t ∧ (true = true ↔ t ≠ []) ∧
      ∀ e ∈ t, e.2 = true :=
  claim10_return_value runTrivial 3 0 c3St true c3StF (fun _ _ => rfl)
    (by decide)

/-! Machinery for the amended claim C6: the snapshot-length invariant is
preserved by make () as long as build actions preserve source lists (and
the invariant on the nodes they touch), and by a cache load; under those
hypotheses make () never reads a snapshot index that does not exist. -/

/-- One node satisfies the invariant: the snapshot, when present, has
exactly one entry per declared source. -/
def invAt (n : NodeData) : Bool :=
  match n.snapshots with
  | none => true
  | some l => l.length == n.sources.length

/-- The invariant of claim C6 over a state. -/
def InvLen (st : St) : Prop :=
  ∀ j, j < st.nodes.length → invAt (nodeAt st j) = true

/-- The invariant transported to a make () result: it holds at every
normal and every error result, and the crash result is unreachable. -/
def InvRes (r : MRes) : Prop :=
  (∀ b s', r = .ok b s' → InvLen s') ∧
  (∀ e s', r = .err e s' → InvLen s') ∧
  (∀ s', r ≠ .crash s')

theorem nodeAt_oob (st : St) (j : Nat) (h : st.nodes.length ≤ j) :
    nodeAt st j = default := by
  simp [nodeAt, List.getD_eq_getElem?_getD, List.getElem?_eq_none h]

theorem invLen_spec {st : St} (h : InvLen st) (j : Nat) {l : List Fp}
    (hs : (nodeAt st j).snapshots = some l) :
    l.length = (nodeAt st j).sources.length := by
  by_cases hj : j < st.nodes.length
  · have h2 := h j hj
    unfold invAt at h2
    rw [hs] at h2
    have h3 : (l.length == (nodeAt st j).sources.length) = true := h2
    simpa using h3
  · rw [nodeAt_oob st j (le_of_not_lt hj)] at hs
    exact Option.noConfusion hs

theorem invLen_setMaking {st : St} (h : InvLen st) (i : Nat) (b : Bool) :
    InvLen (setMaking st i b) := by
  intro j hj
  have hj2 : j < st.nodes.length := by simpa [setMaking] using hj
  have h2 := h j hj2
  unfold invAt at h2 ⊢
  rw [snapshots_setMaking, sources_setMaking]
  exact h2

theorem invLen_appendRun {st : St} (h : InvLen st) (e : Nat × Bool) :
    InvLen (appendRun e st) := by
  intro j hj
  rw [nodeAt_appendRun]
  exact h j (by simpa using hj)

theorem invLen_setSnapshots {st : St} (h : InvLen st) (i : Nat) (l : List Fp)
    (hl : l.length = (nodeAt st i).sources.length) :
    InvLen (setSnapshots st i (some l)) := by
  intro j hj
  have hj2 : j < st.nodes.length := by simpa [setSnapshots] using hj
  have hn := nodeAt_setNode st i (fun n => { n with snapshots := some l }) j
  show invAt (nodeAt (setNode st i _) j) = true
  rw [hn]
  by_cases hij : i = j ∧ i < st.nodes.length
  · rw [if_pos hij]
    unfold invAt
    simp [hl]
  · rw [if_neg hij]
    exact h j hj2

theorem inv_sources (mk : Nat → St → MRes)
    (Hmk : ∀ j s, InvLen s → InvRes (mk j s)) :
    ∀ (srcs : List String) (rv : Bool) (st : St), InvLen st →
      InvRes (makeSources mk srcs rv st) := by
  intro srcs
  induction srcs with
  | nil =>
    intro rv st hst
    refine ⟨?_, ?_, ?_⟩
    · intro b s' h
      have h1 : MRes.ok rv st = MRes.ok b s' := h
      injection h1 with h2 h3
      subst h3
      exact hst
    · intro e s' h
      exact MRes.noConfusion h
    · intro s' h
      exact MRes.noConfusion h
  | cons p rest ih =>
    intro rv st hst
    show InvRes (makeSources mk (p :: rest) rv st)
    simp only [makeSources]
    cases hp : producer st.nodes p with
    | none =>
      simp only [onProducer_none]
      exact ih rv st hst
    | some j =>
      simp only [onProducer_some]
      cases hm : mk j st with
      | ok c st2 =>
        rw [bindOk_ok]
        exact ih _ st2 ((Hmk j st hst).1 c st2 hm)
      | err e2 s2 =>
        rw [bindOk_err]
        refine ⟨fun b s' h => MRes.noConfusion h, ?_, fun s' h => MRes.noConfusion h⟩
        intro e s' h
        injection h with h2 h3
        subst h3
        exact (Hmk j st hst).2.1 e2 s2 hm
      | crash s2 =>
        exact absurd hm ((Hmk j st hst).2.2 s2)
      | fuel =>
        rw [bindOk_fuel]
        exact ⟨fun b s' h => MRes.noConfusion h, fun e s' h => MRes.noConfusion h,
          fun s' h => MRes.noConfusion h⟩

theorem inv_runPhase (run : RunFn)
    (Hinv : ∀ j s, InvLen s → InvLen ((run j s).2))
    (Hpres : ∀ j s, (nodeAt ((run j s).2) j).sources = (nodeAt s j).sources)
    (cont : Bool → St → MRes)
    (Hcont : ∀ s, InvLen s → InvRes (cont true s))
    (i : Nat) (pp : String) (st1 : St) (hst1 : InvLen st1) :
    InvRes (runPhase run cont i pp (snapsOf st1 i) st1) := by
  rw [runPhase]
  by_cases hr : (run i st1).1 = true
  · rw [if_pos hr, hr]
    refine Hcont _ ?_
    refine invLen_setSnapshots (invLen_appendRun (Hinv i st1 hst1) _) i _ ?_
    rw [nodeAt_appendRun, Hpres i st1]
    simp [snapsOf]
  · rw [if_neg hr]
    refine ⟨fun b s' h => MRes.noConfusion h, ?_, fun s' h => MRes.noConfusion h⟩
    intro e s' h
    injection h with h2 h3
    subst h3
    exact invLen_setMaking (invLen_appendRun (Hinv i st1 hst1) _) i false

theorem inv_attempts (run : RunFn)
    (Hinv : ∀ j s, InvLen s → InvLen ((run j s).2))
    (Hpres : ∀ j s, (nodeAt ((run j s).2) j).sources = (nodeAt s j).sources)
    (mk : Nat → St → MRes)
    (Hmk : ∀ j s, InvLen s → InvRes (mk j s))
    (i : Nat) (pp : String) :
    ∀ (r : Nat) (rv : Bool) (st : St), InvLen st →
      InvRes (makeAttempts run mk i pp r rv st) := by
  intro r
  induction r with
  | zero =>
    intro rv st hst
    rw [makeAttempts_zero]
    refine ⟨fun b s' h => MRes.noConfusion h, ?_, fun s' h => MRes.noConfusion h⟩
    intro e s' h
    injection h with h2 h3
    subst h3
    exact invLen_setMaking hst i false
  | succ r ihr =>
    intro rv st hst
    have Hcont : ∀ s, InvLen s →
        InvRes ((fun bb ss => makeAttempts run mk i pp r bb ss) true s) :=
      fun s hs => ihr true s hs
    rw [makeAttempts_succ]
    cases hms : makeSources mk (nodeAt st i).sources rv st with
    | ok rv1 st1 =>
      rw [bindOkF_ok]
      have hst1 : InvLen st1 := (inv_sources mk Hmk _ rv st hst).1 rv1 st1 hms
      show InvRes (afterSources run _ i pp _ rv1 st1)
      rw [afterSources]
      by_cases hmc : missingStr (nodeAt st1 i).sources (snapsOf st1 i) ≠ "" ∧
          ¬((nodeAt st1 i).isLatex = true ∧ (nodeAt st1 i).snapshots = none ∧
            (r + 1 == PATIENCE) = true)
      · rw [if_pos hmc]
        refine ⟨?_, fun e s' h => MRes.noConfusion h, fun s' h => MRes.noConfusion h⟩
        intro b s' h
        injection h with h2 h3
        subst h3
        exact invLen_setMaking hst1 i false
      · rw [if_neg hmc]
        split
        · exact inv_runPhase run Hinv Hpres _ Hcont i pp st1 hst1
        · rename_i old heq
          split
          · rename_i hcc
            exfalso
            have hlen : old.length = (nodeAt st1 i).sources.length :=
              invLen_spec hst1 i heq
            rw [changedCheck, if_neg (by simp [snapsOf, hlen])] at hcc
            exact Option.noConfusion hcc
          · rename_i changed hcc
            by_cases hch : changed ≠ ""
            · rw [if_pos hch]
              exact inv_runPhase run Hinv Hpres _ Hcont i pp st1 hst1
            · rw [if_neg hch]
              refine ⟨?_, fun e s' h => MRes.noConfusion h,
                fun s' h => MRes.noConfusion h⟩
              intro b s' h
              injection h with h2 h3
              subst h3
              exact invLen_setMaking hst1 i false
    | err e2 s2 =>
      rw [bindOkF_err]
      refine ⟨fun b s' h => MRes.noConfusion h, ?_, fun s' h => MRes.noConfusion h⟩
      intro e s' h
      injection h with h2 h3
      subst h3
      exact invLen_setMaking ((inv_sources mk Hmk _ rv st hst).2.1 e2 s2 hms) i false
    | crash s2 =>
      exact absurd hms ((inv_sources mk Hmk _ rv st hst).2.2 s2)
    | fuel =>
      rw [bindOkF_fuel]
      exact ⟨fun b s' h => MRes.noConfusion h, fun e s' h => MRes.noConfusion h,
        fun s' h => MRes.noConfusion h⟩

theorem inv_make (run : RunFn)
    (Hinv : ∀ j s, InvLen s → InvLen ((run j s).2))
    (Hpres : ∀ j s, (nodeAt ((run j s).2) j).sources = (nodeAt s j).sources) :
    ∀ (f i : Nat) (st : St), InvLen st → InvRes (make run f i st) := by
  intro f
  induction f with
  | zero =>
    intro i st hst
    exact ⟨fun b s' h => MRes.noConfusion h, fun e s' h => MRes.noConfusion h,
      fun s' h => MRes.noConfusion h⟩
  | succ f ihf =>
    intro i st hst
    rw [make_succ]
    by_cases hmk : (nodeAt st i).making = true
    · rw [if_pos hmk]
      refine ⟨?_, fun e s' h => MRes.noConfusion h, fun s' h => MRes.noConfusion h⟩
      intro b s' h
      injection h with h2 h3
      subst h3
      exact hst
    · rw [if_neg hmk]
      exact inv_attempts run Hinv Hpres _ (fun j s hs => ihf j s hs) i _
        PATIENCE false (setMaking st i true) (invLen_setMaking hst i true)

theorem inv_install (st : St) (r : CacheRecord) (h : InvLen st) :
    InvLen (installRecord st r) := by
  rw [installRecord]
  cases hp : producer st.nodes r.product with
  | none => exact h
  | some j =>
    show InvLen (if (nodeAt st j).sources ≠ r.entries.map Prod.snd then st
      else if (nodeAt st j).snapshots ≠ none then st
      else setSnapshots st j (some (r.entries.map Prod.fst)))
    by_cases h1 : (nodeAt st j).sources ≠ r.entries.map Prod.snd
    · rw [if_pos h1]
      exact h
    · rw [if_neg h1]
      by_cases h2 : (nodeAt st j).snapshots ≠ none
      · rw [if_pos h2]
        exact h
      · rw [if_neg h2]
        refine invLen_setSnapshots h j _ ?_
        have h3 : (nodeAt st j).sources = r.entries.map Prod.snd := by
          by_contra hc
          exact h1 hc
        rw [h3]
        simp

/-- Claim C6 as amended: loading a cache preserves the invariant that a
present snapshot has exactly one entry per declared source, and so does
make () — with all its error exits — provided every build action preserves
the invariant and the source list of the node it builds; under the same
hypotheses make () never crashes, i.e. never reads a snapshot index that
does not exist.  (The unamended claim is refuted by the counterexample:
add_source leaves a stale snapshot behind, and a build action that adds a
source makes the next attempt read past the end of the snapshot.) -/
theorem claim6_invariant_amended :
    (∀ (recs : List CacheRecord) (st : St), InvLen st →
        InvLen (loadCache recs st)) ∧
    (∀ (run : RunFn) (f i : Nat) (st : St),
        (∀ j s, InvLen s → InvLen ((run j s).2)) →
        (∀ j s, (nodeAt ((run j s).2) j).sources = (nodeAt s j).sources) →
        InvLen st →
        (∀ b s', make run f i st = .ok b s' → InvLen s') ∧
        (∀ e s', make run f i st = .err e s' → InvLen s') ∧
        (∀ s', make run f i st ≠ .crash s')) := by
  constructor
  · intro recs
    induction recs with
    | nil => exact fun st h => h
    | cons r rest ih =>
      intro st h
      exact ih (installRecord st r) (inv_install st r h)
  · intro run f i st Hinv Hpres hst
    exact inv_make run Hinv Hpres f i st hst

/-- Witness for the amended claim C6 at the concrete cyclic graph with the
trivial (state-preserving) build action. -/
theorem claim6_witness :
    (∀ b s', make runTrivial 3 0 c3St = .ok b s' → InvLen s') ∧
    (∀ e s', make runTrivial 3 0 c3St = .err e s' → InvLen s') ∧
    (∀ s', make runTrivial 3 0 c3St ≠ .crash s') :=
  claim6_invariant_amended.2 runTrivial 3 0 c3St (fun _ _ h => h)
    (fun _ _ => rfl) (by unfold InvLen; decide)

end Rubber
